import Mathlib

/-!
# Verification of kreq's quantity normalization and aggregation (src/kreq.py)

Shallow embedding of the core of `kreq.py`, a Kubernetes resource-request
reporter.  Python values that can be either a string or a number are the type
`KValue`; Python floats are modelled as `Rat` (every numeric literal the
claims exercise is exactly representable as a double, so rational arithmetic
agrees with the Python values at those points; non-finite literals such as
`inf`/`nan`, which have no rational value, are treated as unparseable).
A Python function that can raise an uncaught `ValueError` is modelled in the
`Except Unit` monad, where `.error ()` is the escaping exception.
Python's `str.lower`/`str.upper` are modelled on the ASCII range (resource
quantity strings are ASCII), and `re`'s `\d` as the ASCII digits.
-/

namespace Kreq

/-- Decidable equality for `Except`, used to evaluate the model on concrete
inputs. -/
instance {ε α : Type} [DecidableEq ε] [DecidableEq α] : DecidableEq (Except ε α) := fun a b =>
  match a, b with
  | .ok a, .ok b => decidable_of_iff (a = b) (by simp)
  | .error a, .error b => decidable_of_iff (a = b) (by simp)
  | .ok _, .error _ => .isFalse (by simp)
  | .error _, .ok _ => .isFalse (by simp)

/-- A Python value that may be a string or a number (int/float as `Rat`). -/
inductive KValue where
  | KStr (s : String)
  | KNum (q : Rat)
deriving DecidableEq, Repr

open KValue

/-- ASCII digit test (`'0'` to `'9'` by codepoint), the `\d` class of the
source's regular expressions. -/
def isDigitChar (c : Char) : Bool := 48 ≤ c.toNat && c.toNat ≤ 57

/-- The character class kept by `re.sub(r'[^\d.-]', '', _)`: ASCII digits,
`'.'` and `'-'` survive, everything else is deleted. -/
def keepNumChar (c : Char) : Bool := isDigitChar c || c = '.' || c = '-'

/-- ASCII lower-casing of one character (`'A'`–`'Z'` by codepoint), as
Python's `str.lower` acts on the ASCII range. -/
def pyLowerChar (c : Char) : Char :=
  if 65 ≤ c.toNat && c.toNat ≤ 90 then Char.ofNat (c.toNat + 32) else c

/-- ASCII upper-casing of one character (`'a'`–`'z'` by codepoint), as
Python's `str.upper` acts on the ASCII range. -/
def pyUpperChar (c : Char) : Char :=
  if 97 ≤ c.toNat && c.toNat ≤ 122 then Char.ofNat (c.toNat - 32) else c

/-- `s.lower()` on the ASCII range, as a character list. -/
def pyLower (s : String) : List Char := s.data.map pyLowerChar

/-- `s.upper()` on the ASCII range, as a character list. -/
def pyUpper (s : String) : List Char := s.data.map pyUpperChar

/-- Horner evaluation of a big-endian list of digit characters. -/
def digitsVal (l : List Char) : Nat :=
  l.foldl (fun a c => 10 * a + (c.toNat - 48)) 0

/-- Python `float()` on an unsigned decimal body: `digits [. digits*]` or
`. digits+`; anything else fails.  (Exponents are handled separately: the
strings this is applied to in `convert_cpu_to_millicores` have every letter
already stripped.) -/
def parseUnsigned (l : List Char) : Option Rat :=
  match l.dropWhile isDigitChar with
  | [] =>
    if l.takeWhile isDigitChar = [] then none
    else some ((digitsVal (l.takeWhile isDigitChar) : Nat) : Rat)
  | '.' :: frac =>
    if frac.all isDigitChar then
      if l.takeWhile isDigitChar = [] && frac = [] then none
      else some ((digitsVal (l.takeWhile isDigitChar) : Rat) +
        (digitsVal frac : Rat) / (10 : Rat) ^ frac.length)
    else none
  | _ => none

/-- Python `float()` restricted to strings over the alphabet `[0-9.-]`, which
is exactly what `re.sub(r'[^\d.-]', '', _)` can produce: an optional leading
`'-'` followed by an unsigned decimal body. -/
def parseFloat (l : List Char) : Option Rat :=
  match l with
  | '-' :: r => (parseUnsigned r).map Neg.neg
  | _ => parseUnsigned l

/-- Whitespace stripped by Python `float()` around a literal. -/
def pyIsSpace (c : Char) : Bool :=
  c = ' ' || c = '\t' || c = '\n' || c = '\r' || c = '\x0b' || c = '\x0c'

/-- Strip leading and trailing Python whitespace. -/
def trimPy (l : List Char) : List Char :=
  ((l.dropWhile pyIsSpace).reverse.dropWhile pyIsSpace).reverse

/-- Split at the first `'E'` (the input is already upper-cased): returns the
mantissa part and, when an `'E'` occurs, the remainder after it. -/
def splitOnE : List Char → List Char × Option (List Char)
  | [] => ([], none)
  | c :: l =>
    if c = 'E' then ([], some l)
    else
      let p := splitOnE l
      (c :: p.1, p.2)

/-- The exponent after `'E'`: optional sign, then one or more digits. -/
def parseExpPart (l : List Char) : Option Int :=
  match l with
  | '-' :: r => if !r.isEmpty && r.all isDigitChar then some (-(digitsVal r : Int)) else none
  | '+' :: r => if !r.isEmpty && r.all isDigitChar then some ((digitsVal r : Int)) else none
  | r => if !r.isEmpty && r.all isDigitChar then some ((digitsVal r : Int)) else none

/-- Unsigned Python float literal with optional exponent. -/
def pyFloatCore (l : List Char) : Option Rat :=
  match (splitOnE l).2 with
  | none => parseUnsigned (splitOnE l).1
  | some e =>
    match parseUnsigned (splitOnE l).1, parseExpPart e with
    | some m, some ex => some (m * (10 : Rat) ^ ex)
    | _, _ => none

/-- Python `float()` on a full (upper-cased) string: optional surrounding
whitespace, optional sign, decimal literal with optional exponent.  Finite
literals only: `INF`/`NAN` (no rational value) and underscore digit grouping
are treated as unparseable. -/
def pyFloatFull (l : List Char) : Option Rat :=
  match trimPy l with
  | '-' :: r => (pyFloatCore r).map Neg.neg
  | '+' :: r => pyFloatCore r
  | r => pyFloatCore r

/-- `'m' in cpu_value.lower()`: the milli-unit detection of
`convert_cpu_to_millicores`, run on the original (lower-cased) string. -/
def containsM (s : String) : Bool := (pyLower s).contains 'm'

/-- `convert_cpu_to_millicores` from src/kreq.py lines 43-61.  `'N/A'` maps
to 0; a string is stripped to `[0-9.-]` characters (after lower-casing) and
parsed, an empty remainder or failed parse yields 0, and the magnitude is
taken as millicores when `'m'` occurs in the lower-cased original, else
multiplied by 1000; a non-string number is multiplied by 1000.  The string
path never raises: the `float` call sits in a `try/except` that returns 0. -/
def convert_cpu_to_millicores : KValue → Rat
  | KStr s =>
    if s = "N/A" then 0
    else
      match parseFloat ((pyLower s).filter keepNumChar) with
      | none => 0
      | some num => if containsM s then num else num * 1000
  | KNum q => q * 1000

/-- Two-character substring test: `hasPair a b l` iff the characters `a`, `b`
occur adjacently in `l` (Python's `'GI' in s` etc.). -/
def hasPair (a b : Char) : List Char → Bool
  | x :: y :: l => (x = a && y = b) || hasPair a b (y :: l)
  | _ => false

/-- `convert_memory_to_mebibytes` from src/kreq.py lines 63-87.  `'N/A'` maps
to `ok 0`; otherwise a string is upper-cased and checked for the markers
`GI`/`MI`/`KI` in that order, and the corresponding branch calls `float` on
the stripped magnitude *outside* any `try/except` — a failed parse there is
an uncaught `ValueError`, modelled as `.error ()`.  With no marker, `float`
on the whole string is tried and failure yields `ok 0`; a non-string number
is divided by 1024·1024. -/
def convert_memory_to_mebibytes : KValue → Except Unit Rat
  | KStr s =>
    if s = "N/A" then .ok 0
    else if hasPair 'G' 'I' (pyUpper s) then
      match parseFloat ((pyUpper s).filter keepNumChar) with
      | none => .error ()
      | some num => .ok (num * 1024)
    else if hasPair 'M' 'I' (pyUpper s) then
      match parseFloat ((pyUpper s).filter keepNumChar) with
      | none => .error ()
      | some num => .ok num
    else if hasPair 'K' 'I' (pyUpper s) then
      match parseFloat ((pyUpper s).filter keepNumChar) with
      | none => .error ()
      | some num => .ok (num / 1024)
    else
      match pyFloatFull (pyUpper s) with
      | none => .ok 0
      | some num => .ok (num / (1024 * 1024))
  | KNum q => .ok (q / (1024 * 1024))

/-! ## Pod data model and the container aggregator -/

/-- `container['resources']['requests']`: each key may be absent. -/
structure Requests where
  cpu : Option KValue
  memory : Option KValue
deriving DecidableEq, Repr

/-- One entry of `item['spec']['containers']`: a name, and an optional
`resources` mapping (whose `requests` mapping is folded into `Requests`;
an absent `resources` behaves as `{}`, i.e. both requests absent, exactly
like the chained `.get(..., {})`). -/
structure Container where
  name : String
  resources : Option Requests
deriving DecidableEq, Repr

/-- One pod of the listing: `metadata.namespace`, `metadata.name`, the
optional `spec.nodeName`, and `spec.containers`. -/
structure PodItem where
  metadata_namespace : String
  metadata_name : String
  nodeName : Option String
  containers : List Container
deriving DecidableEq, Repr

/-- The pod listing snapshot (`pod_data['items']`). -/
structure PodData where
  items : List PodItem
deriving DecidableEq, Repr

/-- The per-container record appended to `containers` by
`parse_container_resources`. -/
structure ContainerRecord where
  full_name : String
  node_name : String
  cpu : KValue
  memory : KValue
  cpu_millicores : Rat
  memory_mebibytes : Rat
deriving DecidableEq, Repr

/-- `requests.get('cpu', 'N/A')` for a container, through the two defaulted
`.get(..., {})` steps. -/
def cpuOf (c : Container) : KValue := (c.resources.getD ⟨none, none⟩).cpu.getD (KStr "N/A")

/-- `requests.get('memory', 'N/A')` for a container. -/
def memoryOf (c : Container) : KValue :=
  (c.resources.getD ⟨none, none⟩).memory.getD (KStr "N/A")

/-- The loop body of `parse_container_resources` for one container: read the
(possibly defaulted) requests, normalize them — the memory conversion may
raise — and build the record. -/
def processContainer (ns pod node : String) (c : Container) : Except Unit ContainerRecord :=
  match convert_memory_to_mebibytes (memoryOf c) with
  | .error e => .error e
  | .ok memory_mebibytes =>
    .ok { full_name := ns ++ "/" ++ pod ++ "/" ++ c.name
          node_name := node
          cpu := cpuOf c
          memory := memoryOf c
          cpu_millicores := convert_cpu_to_millicores (cpuOf c)
          memory_mebibytes := memory_mebibytes }

/-- The inner `for container in item['spec']['containers']` loop: appends
records and adds to the running totals carried in `acc`. -/
def foldContainers (ns pod node : String) :
    List ContainerRecord × Rat × Rat → List Container →
    Except Unit (List ContainerRecord × Rat × Rat)
  | acc, [] => .ok acc
  | (rs, tc, tm), c :: cs =>
    match processContainer ns pod node c with
    | .error e => .error e
    | .ok r =>
      foldContainers ns pod node
        (rs ++ [r], tc + r.cpu_millicores, tm + r.memory_mebibytes) cs

/-- The outer `for item in pod_data['items']` loop. -/
def foldItems : List ContainerRecord × Rat × Rat → List PodItem →
    Except Unit (List ContainerRecord × Rat × Rat)
  | acc, [] => .ok acc
  | acc, it :: its =>
    match foldContainers it.metadata_namespace it.metadata_name
        (it.nodeName.getD "N/A") acc it.containers with
    | .error e => .error e
    | .ok acc2 => foldItems acc2 its

/-- `parse_container_resources` from src/kreq.py lines 89-120: walk every
container of every pod, building the record list and the running CPU/memory
totals; an exception escaping `convert_memory_to_mebibytes` propagates. -/
def parse_container_resources (pd : PodData) :
    Except Unit (List ContainerRecord × Rat × Rat) :=
  foldItems ([], 0, 0) pd.items

/-! ## Node data model and the node aggregator -/

/-- `node['status']`: the `allocatable` and `capacity` string-keyed maps,
modelled as association lists (Kubernetes node maps have distinct keys). -/
structure NodeStatus where
  allocatable : List (String × KValue)
  capacity : List (String × KValue)
deriving DecidableEq, Repr

/-- One node of the listing: `metadata.name`, the optional `metadata.labels`
map, and `status`. -/
structure NodeItem where
  name : String
  labels : Option (List (String × String))
  status : NodeStatus
deriving DecidableEq, Repr

/-- The node listing snapshot (`node_data['items']`). -/
structure NodeData where
  items : List NodeItem
deriving DecidableEq, Repr

/-- The value stored per node by `get_node_resources`. -/
structure NodeRes where
  allocatable_cpu : Rat
  allocatable_memory : Rat
  capacity_cpu : Rat
  capacity_memory : Rat
deriving DecidableEq, Repr

/-- Dictionary lookup `m.get(k)` on an association list. -/
def lookupKey (m : List (String × KValue)) (k : String) : Option KValue :=
  (m.find? (fun p => p.1 = k)).map (fun p => p.2)

/-- `'node-role.kubernetes.io/control-plane' in node['metadata'].get('labels', {})`. -/
def isControlPlane (n : NodeItem) : Bool :=
  (n.labels.getD []).any (fun p => p.1 = "node-role.kubernetes.io/control-plane")

/-- The record built for one non-control-plane node: each of the four fields
is looked up with default `'0'` and normalized; the memory conversions may
raise. -/
def mkNodeRes (n : NodeItem) : Except Unit NodeRes :=
  match convert_memory_to_mebibytes ((lookupKey n.status.allocatable "memory").getD (KStr "0")),
        convert_memory_to_mebibytes ((lookupKey n.status.capacity "memory").getD (KStr "0")) with
  | .ok am, .ok cm =>
    .ok ⟨convert_cpu_to_millicores ((lookupKey n.status.allocatable "cpu").getD (KStr "0")), am,
         convert_cpu_to_millicores ((lookupKey n.status.capacity "cpu").getD (KStr "0")), cm⟩
  | .error e, _ => .error e
  | _, .error e => .error e

/-- The loop of `get_node_resources` over `node_data['items']`: skip
control-plane nodes, otherwise insert the node's record keyed by its name
(the Python dict in insertion order, as an association list — node names in
a listing are unique). -/
def foldNodes : List NodeItem → Except Unit (List (String × NodeRes))
  | [] => .ok []
  | n :: ns =>
    if isControlPlane n then foldNodes ns
    else
      match mkNodeRes n, foldNodes ns with
      | .ok r, .ok rest => .ok ((n.name, r) :: rest)
      | .error e, _ => .error e
      | .ok _, .error e => .error e

/-- `get_node_resources` from src/kreq.py lines 122-142, with the node
listing passed explicitly (in the source it is fetched by `get_node_data`,
an external collaborator). -/
def get_node_resources (nd : NodeData) : Except Unit (List (String × NodeRes)) :=
  foldNodes nd.items

/-! ## Helper lemmas: characters and case maps -/

theorem charOfNat_toNat {n : Nat} (h : n < 55296) : (Char.ofNat n).toNat = n := by
  unfold Char.ofNat
  rw [dif_pos (Or.inl h)]
  rfl

theorem pyLowerChar_eq_dash {c : Char} (h : pyLowerChar c = '-') : c = '-' := by
  unfold pyLowerChar at h
  split at h
  · rename_i hc
    simp only [Bool.and_eq_true, decide_eq_true_eq] at hc
    have ht := congrArg Char.toNat h
    rw [charOfNat_toNat (by omega)] at ht
    have : ('-' : Char).toNat = 45 := by decide
    omega
  · exact h

theorem pyUpperChar_eq_dash {c : Char} (h : pyUpperChar c = '-') : c = '-' := by
  unfold pyUpperChar at h
  split at h
  · rename_i hc
    simp only [Bool.and_eq_true, decide_eq_true_eq] at hc
    have ht := congrArg Char.toNat h
    rw [charOfNat_toNat (by omega)] at ht
    have : ('-' : Char).toNat = 45 := by decide
    omega
  · exact h

theorem isDigitChar_toNat {c : Char} (h : isDigitChar c = true) :
    48 ≤ c.toNat ∧ c.toNat ≤ 57 := by
  simpa only [isDigitChar, Bool.and_eq_true, decide_eq_true_eq] using h

theorem pyLowerChar_of_digit {c : Char} (h : isDigitChar c = true) : pyLowerChar c = c := by
  obtain ⟨h1, h2⟩ := isDigitChar_toNat h
  unfold pyLowerChar
  rw [if_neg]
  simp only [Bool.and_eq_true, decide_eq_true_eq, not_and]
  omega

theorem digit_ne_m {c : Char} (h : isDigitChar c = true) : c ≠ 'm' := by
  obtain ⟨h1, h2⟩ := isDigitChar_toNat h
  intro hc
  subst hc
  revert h2
  decide

theorem digit_ne_dash {c : Char} (h : isDigitChar c = true) : c ≠ '-' := by
  obtain ⟨h1, h2⟩ := isDigitChar_toNat h
  intro hc
  subst hc
  revert h1
  decide

/-! ## Helper lemmas: list facts -/

theorem takeWhile_of_all {p : Char → Bool} :
    ∀ {l : List Char}, (∀ c ∈ l, p c = true) → l.takeWhile p = l
  | [], _ => rfl
  | c :: l, h => by
    have hc : p c = true := h c (List.mem_cons_self c l)
    simp only [List.takeWhile_cons, hc]
    exact congrArg (c :: ·) (takeWhile_of_all fun d hd => h d (List.mem_cons_of_mem c hd))

theorem dropWhile_of_all {p : Char → Bool} :
    ∀ {l : List Char}, (∀ c ∈ l, p c = true) → l.dropWhile p = []
  | [], _ => rfl
  | c :: l, h => by
    have hc : p c = true := h c (List.mem_cons_self c l)
    simp only [List.dropWhile_cons, hc]
    exact dropWhile_of_all fun d hd => h d (List.mem_cons_of_mem c hd)

theorem mem_of_mem_dropWhile {p : Char → Bool} {c : Char} :
    ∀ {l : List Char}, c ∈ l.dropWhile p → c ∈ l
  | [], h => h
  | a :: l, h => by
    rw [List.dropWhile_cons] at h
    by_cases ha : p a = true
    · rw [if_pos ha] at h
      exact List.mem_cons_of_mem a (mem_of_mem_dropWhile h)
    · rw [if_neg ha] at h
      exact h

theorem mem_of_mem_trimPy {c : Char} {l : List Char} (h : c ∈ trimPy l) : c ∈ l := by
  unfold trimPy at h
  rw [List.mem_reverse] at h
  have h2 := mem_of_mem_dropWhile h
  rw [List.mem_reverse] at h2
  exact mem_of_mem_dropWhile h2

theorem mem_of_mem_splitOnE {c : Char} :
    ∀ {l : List Char}, c ∈ (splitOnE l).1 → c ∈ l
  | [], h => by simp [splitOnE] at h
  | a :: l, h => by
    unfold splitOnE at h
    split at h
    · simp at h
    · rcases List.mem_cons.mp h with rfl | h
      · exact List.mem_cons_self _ _
      · exact List.mem_cons_of_mem a (mem_of_mem_splitOnE h)

/-! ## Helper lemmas: parser results are nonnegative absent a minus sign -/

theorem parseUnsigned_nonneg {l : List Char} {r : Rat}
    (h : parseUnsigned l = some r) : 0 ≤ r := by
  unfold parseUnsigned at h
  split at h
  · split at h
    · exact absurd h (by simp)
    · obtain rfl := Option.some.inj h
      exact Nat.cast_nonneg _
  · split at h
    · split at h
      · exact absurd h (by simp)
      · obtain rfl := Option.some.inj h
        exact add_nonneg (Nat.cast_nonneg _)
          (div_nonneg (Nat.cast_nonneg _) (pow_nonneg (by norm_num) _))
    · exact absurd h (by simp)
  · exact absurd h (by simp)

theorem parseFloat_nonneg {l : List Char} {r : Rat}
    (hd : '-' ∉ l) (h : parseFloat l = some r) : 0 ≤ r := by
  unfold parseFloat at h
  split at h
  · exact absurd (List.mem_cons_self _ _) hd
  · exact parseUnsigned_nonneg h

theorem pyFloatCore_nonneg {l : List Char} {r : Rat}
    (h : pyFloatCore l = some r) : 0 ≤ r := by
  unfold pyFloatCore at h
  split at h
  · exact parseUnsigned_nonneg h
  · split at h
    · obtain rfl := Option.some.inj h
      rename_i m ex hm _
      exact mul_nonneg (parseUnsigned_nonneg hm)
        (le_of_lt (zpow_pos (by norm_num) ex))
    · exact absurd h (by simp)

theorem pyFloatFull_nonneg {l : List Char} {r : Rat}
    (hd : '-' ∉ l) (h : pyFloatFull l = some r) : 0 ≤ r := by
  unfold pyFloatFull at h
  split at h
  · rename_i heq
    exact absurd (mem_of_mem_trimPy (heq ▸ List.mem_cons_self _ _)) hd
  · exact pyFloatCore_nonneg h
  · exact pyFloatCore_nonneg h

/-! ## Helper lemmas: Python's decimal representation of a natural number -/

/-- The character of one decimal digit. -/
def digitToChar (d : Nat) : Char := Char.ofNat (48 + d)

/-- Python's `str(n)` for a nonnegative integer `n`: its decimal digits,
most significant first. -/
def pyStrNat (n : Nat) : String :=
  ⟨if n = 0 then ['0'] else ((Nat.digits 10 n).map digitToChar).reverse⟩

theorem digitToChar_toNat {d : Nat} (h : d < 10) : (digitToChar d).toNat = 48 + d :=
  charOfNat_toNat (by omega)

theorem isDigitChar_digitToChar {d : Nat} (h : d < 10) :
    isDigitChar (digitToChar d) = true := by
  simp only [isDigitChar, digitToChar_toNat h, Bool.and_eq_true, decide_eq_true_eq]
  omega

/-- Horner evaluation of the reversed digit list is `Nat.ofDigits`. -/
theorem foldl_reverse_eq_ofDigits :
    ∀ ds : List Nat, ds.reverse.foldl (fun a d => 10 * a + d) 0 = Nat.ofDigits 10 ds
  | [] => rfl
  | d :: ds => by
    rw [List.reverse_cons, List.foldl_append, foldl_reverse_eq_ofDigits ds,
      Nat.ofDigits_cons]
    simp only [List.foldl_cons, List.foldl_nil]
    omega

/-- `digitsVal` recovers the Horner value of an encoded digit list. -/
theorem digitsVal_map_digitToChar :
    ∀ ds : List Nat, (∀ d ∈ ds, d < 10) →
      digitsVal (ds.map digitToChar) = ds.foldl (fun a d => 10 * a + d) 0 := by
  have aux : ∀ (ds : List Nat) (a : Nat), (∀ d ∈ ds, d < 10) →
      ds.foldl (fun x d => 10 * x + ((digitToChar d).toNat - 48)) a =
      ds.foldl (fun x d => 10 * x + d) a := by
    intro ds
    induction ds with
    | nil => intro a _; rfl
    | cons d ds ih =>
      intro a h
      simp only [List.foldl_cons]
      rw [digitToChar_toNat (h d (List.mem_cons_self d ds)), Nat.add_sub_cancel_left]
      exact ih _ fun e he => h e (List.mem_cons_of_mem d he)
  intro ds h
  unfold digitsVal
  rw [List.foldl_map]
  exact aux ds 0 h

theorem digits_lt_ten {n d : Nat} (hd : d ∈ Nat.digits 10 n) : d < 10 :=
  Nat.digits_lt_base (by norm_num) hd

/-- Every character of `pyStrNat n` is an ASCII digit. -/
theorem pyStrNat_all_digits {n : Nat} {c : Char} (h : c ∈ (pyStrNat n).data) :
    isDigitChar c = true := by
  replace h : c ∈ (if n = 0 then ['0'] else ((Nat.digits 10 n).map digitToChar).reverse) := h
  split at h
  · rw [List.mem_singleton] at h
    subst h
    decide
  · rw [List.mem_reverse, List.mem_map] at h
    obtain ⟨d, hd, rfl⟩ := h
    exact isDigitChar_digitToChar (digits_lt_ten hd)

/-- The decimal digits of `n` evaluate back to `n`. -/
theorem digitsVal_pyStrNat (n : Nat) : digitsVal (pyStrNat n).data = n := by
  show digitsVal (if n = 0 then ['0'] else ((Nat.digits 10 n).map digitToChar).reverse) = n
  by_cases h0 : n = 0
  · subst h0
    rfl
  · rw [if_neg h0, ← List.map_reverse, digitsVal_map_digitToChar _
      (fun d hd => digits_lt_ten (List.mem_reverse.mp hd)),
      foldl_reverse_eq_ofDigits, Nat.ofDigits_digits]

theorem pyStrNat_ne_nil (n : Nat) : (pyStrNat n).data ≠ [] := by
  show (if n = 0 then ['0'] else ((Nat.digits 10 n).map digitToChar).reverse) ≠ []
  split
  · simp
  · rename_i h0
    simp only [ne_eq, List.reverse_eq_nil_iff, List.map_eq_nil_iff]
    exact Nat.digits_ne_nil_iff_ne_zero.mpr h0

theorem parseUnsigned_of_all_digits {l : List Char} (hne : l ≠ [])
    (hall : ∀ c ∈ l, isDigitChar c = true) :
    parseUnsigned l = some ((digitsVal l : Nat) : Rat) := by
  unfold parseUnsigned
  rw [dropWhile_of_all hall, takeWhile_of_all hall]
  exact if_neg hne

theorem parseFloat_of_all_digits {l : List Char} (hne : l ≠ [])
    (hall : ∀ c ∈ l, isDigitChar c = true) :
    parseFloat l = some ((digitsVal l : Nat) : Rat) := by
  unfold parseFloat
  split
  · have := hall '-' (List.mem_cons_self _ _)
    simp [isDigitChar] at this
  · exact parseUnsigned_of_all_digits hne hall

theorem filter_keep_of_all_digits {l : List Char}
    (hall : ∀ c ∈ l, isDigitChar c = true) : l.filter keepNumChar = l := by
  induction l with
  | nil => rfl
  | cons c l ih =>
    have hc : keepNumChar c = true := by
      simp only [keepNumChar, hall c (List.mem_cons_self c l), Bool.true_or]
    rw [List.filter_cons, if_pos hc, ih fun d hd => hall d (List.mem_cons_of_mem c hd)]

theorem map_pyLowerChar_of_all_digits {l : List Char}
    (hall : ∀ c ∈ l, isDigitChar c = true) : l.map pyLowerChar = l := by
  induction l with
  | nil => rfl
  | cons c l ih =>
    rw [List.map_cons, pyLowerChar_of_digit (hall c (List.mem_cons_self c l)),
      ih fun d hd => hall d (List.mem_cons_of_mem c hd)]

theorem contains_m_eq_false : ∀ {l : List Char},
    (∀ c ∈ l, isDigitChar c = true) → l.contains 'm' = false
  | [], _ => rfl
  | c :: l, h => by
    have hc : ('m' == c) = false := by
      have := digit_ne_m (h c (List.mem_cons_self c l))
      simp only [beq_eq_false_iff_ne, ne_eq]
      exact fun hh => this hh.symm
    show List.elem 'm' (c :: l) = false
    rw [List.elem_cons, hc]
    exact contains_m_eq_false fun d hd => h d (List.mem_cons_of_mem c hd)

theorem pyStrNat_ne_NA (n : Nat) : pyStrNat n ≠ "N/A" := by
  intro h
  have hN : ('N' : Char) ∈ (pyStrNat n).data := by
    rw [h]
    decide
  have := pyStrNat_all_digits hN
  simp [isDigitChar] at this

/-! ## Helper lemmas: aggregation -/

/-- Sum of the normalized CPU over a record list. -/
def sumCpu (rs : List ContainerRecord) : Rat :=
  (rs.map ContainerRecord.cpu_millicores).sum

/-- Sum of the normalized memory over a record list. -/
def sumMem (rs : List ContainerRecord) : Rat :=
  (rs.map ContainerRecord.memory_mebibytes).sum

theorem foldContainers_totals (ns pod node : String) :
    ∀ (cs : List Container) (rs : List ContainerRecord) (tc tm : Rat)
      (rs' : List ContainerRecord) (tc' tm' : Rat),
      foldContainers ns pod node (rs, tc, tm) cs = .ok (rs', tc', tm') →
      tc = sumCpu rs → tm = sumMem rs → tc' = sumCpu rs' ∧ tm' = sumMem rs'
  | [], rs, tc, tm, rs', tc', tm', h, hc, hm => by
    obtain ⟨rfl, rfl, rfl⟩ : rs = rs' ∧ tc = tc' ∧ tm = tm' := by
      unfold foldContainers at h
      simpa using h
    exact ⟨hc, hm⟩
  | c :: cs, rs, tc, tm, rs', tc', tm', h, hc, hm => by
    unfold foldContainers at h
    split at h
    · exact absurd h (by simp)
    · rename_i r _
      refine foldContainers_totals ns pod node cs (rs ++ [r]) _ _ rs' tc' tm' h ?_ ?_
      · simp [sumCpu, hc]
      · simp [sumMem, hm]

theorem foldItems_totals :
    ∀ (its : List PodItem) (rs : List ContainerRecord) (tc tm : Rat)
      (rs' : List ContainerRecord) (tc' tm' : Rat),
      foldItems (rs, tc, tm) its = .ok (rs', tc', tm') →
      tc = sumCpu rs → tm = sumMem rs → tc' = sumCpu rs' ∧ tm' = sumMem rs'
  | [], rs, tc, tm, rs', tc', tm', h, hc, hm => by
    obtain ⟨rfl, rfl, rfl⟩ : rs = rs' ∧ tc = tc' ∧ tm = tm' := by
      unfold foldItems at h
      simpa using h
    exact ⟨hc, hm⟩
  | it :: its, rs, tc, tm, rs', tc', tm', h, hc, hm => by
    unfold foldItems at h
    split at h
    · exact absurd h (by simp)
    · rename_i acc2 hacc
      obtain ⟨rs2, tc2, tm2⟩ := acc2
      obtain ⟨hc2, hm2⟩ := foldContainers_totals _ _ _ _ rs tc tm rs2 tc2 tm2 hacc hc hm
      exact foldItems_totals its rs2 tc2 tm2 rs' tc' tm' h hc2 hm2

/-! ## Helper lemmas: branch characterizations of the converters -/

theorem convert_cpu_str_eval {s : String} {v : Rat} (hna : s ≠ "N/A")
    (hp : parseFloat ((pyLower s).filter keepNumChar) = some v) :
    convert_cpu_to_millicores (KStr s) = if containsM s then v else v * 1000 := by
  simp only [convert_cpu_to_millicores]
  rw [if_neg hna, hp]

theorem pyUpper_NA : pyUpper "N/A" = ['N', '/', 'A'] := rfl

theorem ne_NA_of_hasPair {s : String} {a b : Char}
    (h : hasPair a b (pyUpper s) = true) (hna : hasPair a b (pyUpper "N/A") = false) :
    s ≠ "N/A" := by
  intro he
  rw [he, hna] at h
  exact Bool.false_ne_true h

theorem convert_mem_str_GI {s : String} {v : Rat}
    (hgi : hasPair 'G' 'I' (pyUpper s) = true)
    (hp : parseFloat ((pyUpper s).filter keepNumChar) = some v) :
    convert_memory_to_mebibytes (KStr s) = .ok (v * 1024) := by
  simp only [convert_memory_to_mebibytes]
  rw [if_neg (ne_NA_of_hasPair hgi (by decide)), if_pos hgi, hp]

theorem convert_mem_str_MI {s : String} {v : Rat}
    (hgi : hasPair 'G' 'I' (pyUpper s) = false)
    (hmi : hasPair 'M' 'I' (pyUpper s) = true)
    (hp : parseFloat ((pyUpper s).filter keepNumChar) = some v) :
    convert_memory_to_mebibytes (KStr s) = .ok v := by
  simp only [convert_memory_to_mebibytes]
  rw [if_neg (ne_NA_of_hasPair hmi (by decide)), if_neg (by rw [hgi]; exact Bool.false_ne_true),
    if_pos hmi, hp]

theorem convert_mem_str_KI {s : String} {v : Rat}
    (hgi : hasPair 'G' 'I' (pyUpper s) = false)
    (hmi : hasPair 'M' 'I' (pyUpper s) = false)
    (hki : hasPair 'K' 'I' (pyUpper s) = true)
    (hp : parseFloat ((pyUpper s).filter keepNumChar) = some v) :
    convert_memory_to_mebibytes (KStr s) = .ok (v / 1024) := by
  simp only [convert_memory_to_mebibytes]
  rw [if_neg (ne_NA_of_hasPair hki (by decide)), if_neg (by rw [hgi]; exact Bool.false_ne_true),
    if_neg (by rw [hmi]; exact Bool.false_ne_true), if_pos hki, hp]

/-! ## Helper lemmas: nonnegativity of the converters on minus-free input -/

theorem dash_not_mem_pyLower {s : String} (hs : '-' ∉ s.data) : '-' ∉ pyLower s := by
  intro h
  unfold pyLower at h
  rw [List.mem_map] at h
  obtain ⟨c, hc, hcl⟩ := h
  exact hs ((pyLowerChar_eq_dash hcl) ▸ hc)

theorem dash_not_mem_pyUpper {s : String} (hs : '-' ∉ s.data) : '-' ∉ pyUpper s := by
  intro h
  unfold pyUpper at h
  rw [List.mem_map] at h
  obtain ⟨c, hc, hcl⟩ := h
  exact hs ((pyUpperChar_eq_dash hcl) ▸ hc)

theorem convert_cpu_str_nonneg {s : String} (hs : '-' ∉ s.data) :
    0 ≤ convert_cpu_to_millicores (KStr s) := by
  simp only [convert_cpu_to_millicores]
  split
  · exact le_refl 0
  · split
    · exact le_refl 0
    · rename_i v hv
      have hnn : 0 ≤ v := parseFloat_nonneg
        (fun hm => dash_not_mem_pyLower hs (List.mem_of_mem_filter hm)) hv
      split
      · exact hnn
      · exact mul_nonneg hnn (by norm_num)

theorem convert_mem_str_nonneg {s : String} {r : Rat} (hs : '-' ∉ s.data)
    (h : convert_memory_to_mebibytes (KStr s) = .ok r) : 0 ≤ r := by
  have hu : ∀ {v : Rat}, parseFloat ((pyUpper s).filter keepNumChar) = some v → 0 ≤ v :=
    fun hv => parseFloat_nonneg
      (fun hm => dash_not_mem_pyUpper hs (List.mem_of_mem_filter hm)) hv
  simp only [convert_memory_to_mebibytes] at h
  split at h
  · obtain rfl := Except.ok.inj h
    exact le_refl 0
  · split at h
    · split at h
      · exact absurd h (by simp)
      · rename_i v hv
        obtain rfl := Except.ok.inj h
        exact mul_nonneg (hu hv) (by norm_num)
    · split at h
      · split at h
        · exact absurd h (by simp)
        · rename_i v hv
          obtain rfl := Except.ok.inj h
          exact hu hv
      · split at h
        · split at h
          · exact absurd h (by simp)
          · rename_i v hv
            obtain rfl := Except.ok.inj h
            exact div_nonneg (hu hv) (by norm_num)
        · split at h
          · obtain rfl := Except.ok.inj h
            exact le_refl 0
          · rename_i v hv
            obtain rfl := Except.ok.inj h
            exact div_nonneg (pyFloatFull_nonneg (dash_not_mem_pyUpper hs) hv) (by norm_num)

theorem foldNodes_filter :
    ∀ ns : List NodeItem, foldNodes (ns.filter fun n => !isControlPlane n) = foldNodes ns
  | [] => rfl
  | n :: ns => by
    rw [List.filter_cons]
    by_cases hcp : isControlPlane n = true
    · rw [show (!isControlPlane n) = false by rw [hcp]; rfl]
      simp only [Bool.false_eq_true, if_false]
      rw [foldNodes_filter ns]
      conv_rhs => unfold foldNodes
      rw [if_pos hcp]
    · rw [show (!isControlPlane n) = true by rw [Bool.not_eq_true] at hcp; rw [hcp]; rfl]
      simp only [if_true]
      show foldNodes (n :: ns.filter fun n => !isControlPlane n) = foldNodes (n :: ns)
      conv_lhs => unfold foldNodes
      conv_rhs => unfold foldNodes
      rw [if_neg hcp, if_neg hcp, foldNodes_filter ns]

/-! ## The claims -/

/-- C1: the spec requires `convert_memory_to_mebibytes` to be total and to
map every unparseable value — including a bare unit marker such as `"Gi"` —
to 0.  The code violates this: in the `Gi`/`Mi`/`Ki` branches the `float`
call is outside any `try/except`, so `"Gi"` strips to the empty string and
`float('')` raises an uncaught `ValueError` instead of returning 0. -/
theorem C1_memory_raises_on_Gi :
    convert_memory_to_mebibytes (KStr "Gi") = .error () := rfl

/-- C2: the spec requires `parse_container_resources` never to raise for any
combination of missing/malformed per-container request fields and to return
one record per container.  The code violates this: a container whose memory
request is `"Gi"` makes `convert_memory_to_mebibytes` raise, the exception
propagates out of the aggregation loop, and no record set is returned at
all. -/
theorem C2_aggregator_raises_on_Gi :
    parse_container_resources
      ⟨[⟨"default", "pod-a", none, [⟨"app", some ⟨none, some (KStr "Gi")⟩⟩]⟩]⟩ =
      .error () := rfl

/-- C5: `convert_cpu_to_millicores` detects milli-units by checking for a
case-insensitive `'m'` anywhere in the original (lower-cased, unstripped)
string: when present the parsed magnitude is returned as millicores as-is,
otherwise it is multiplied by 1000; in particular `"500m" ↦ 500`,
`"0.5" ↦ 500` and `"2" ↦ 2000`. -/
theorem C5_cpu_milli_detection :
    (∀ (s : String) (v : Rat), s ≠ "N/A" →
      parseFloat ((pyLower s).filter keepNumChar) = some v →
      convert_cpu_to_millicores (KStr s) = if containsM s then v else v * 1000)
    ∧ convert_cpu_to_millicores (KStr "500m") = 500
    ∧ convert_cpu_to_millicores (KStr "0.5") = 500
    ∧ convert_cpu_to_millicores (KStr "2") = 2000 := by
  refine ⟨fun s v hna hp => convert_cpu_str_eval hna hp, rfl, ?_, ?_⟩
  · rw [show convert_cpu_to_millicores (KStr "0.5") =
      ((0 : Rat) + (5 : Rat) / (10 : Rat) ^ (1 : Nat)) * 1000 from rfl]
    norm_num
  · rw [show convert_cpu_to_millicores (KStr "2") = (2 : Rat) * 1000 from rfl]
    norm_num

/-- Witness for C5 at the concrete input `"500m"`. -/
theorem C5_cpu_milli_detection_witness :
    convert_cpu_to_millicores (KStr "500m") =
      if containsM "500m" then (500 : Rat) else (500 : Rat) * 1000 :=
  C5_cpu_milli_detection.1 "500m" 500 (by decide) rfl

/-- C6: `convert_memory_to_mebibytes` case-normalizes its input and applies
the first matching marker in priority order `Gi` (×1024), `Mi` (as-is),
`Ki` (÷1024); in particular `"1Gi" ↦ 1024`, `"1024Mi" ↦ 1024`,
`"1048576Ki" ↦ 1024` and `"1.5Gi"` agrees with `"1536Mi"`. -/
theorem C6_memory_markers :
    (∀ (s : String) (v : Rat), hasPair 'G' 'I' (pyUpper s) = true →
      parseFloat ((pyUpper s).filter keepNumChar) = some v →
      convert_memory_to_mebibytes (KStr s) = .ok (v * 1024))
    ∧ (∀ (s : String) (v : Rat), hasPair 'G' 'I' (pyUpper s) = false →
      hasPair 'M' 'I' (pyUpper s) = true →
      parseFloat ((pyUpper s).filter keepNumChar) = some v →
      convert_memory_to_mebibytes (KStr s) = .ok v)
    ∧ (∀ (s : String) (v : Rat), hasPair 'G' 'I' (pyUpper s) = false →
      hasPair 'M' 'I' (pyUpper s) = false → hasPair 'K' 'I' (pyUpper s) = true →
      parseFloat ((pyUpper s).filter keepNumChar) = some v →
      convert_memory_to_mebibytes (KStr s) = .ok (v / 1024))
    ∧ convert_memory_to_mebibytes (KStr "1Gi") = .ok 1024
    ∧ convert_memory_to_mebibytes (KStr "1024Mi") = .ok 1024
    ∧ convert_memory_to_mebibytes (KStr "1048576Ki") = .ok 1024
    ∧ convert_memory_to_mebibytes (KStr "1.5Gi") =
        convert_memory_to_mebibytes (KStr "1536Mi") := by
  refine ⟨fun s v h1 hp => convert_mem_str_GI h1 hp,
    fun s v h1 h2 hp => convert_mem_str_MI h1 h2 hp,
    fun s v h1 h2 h3 hp => convert_mem_str_KI h1 h2 h3 hp, ?_, rfl, ?_, ?_⟩
  · rw [show convert_memory_to_mebibytes (KStr "1Gi") = .ok ((1 : Rat) * 1024) from rfl]
    norm_num
  · rw [show convert_memory_to_mebibytes (KStr "1048576Ki") =
      .ok ((1048576 : Rat) / 1024) from rfl]
    norm_num
  · rw [show convert_memory_to_mebibytes (KStr "1.5Gi") =
      .ok (((1 : Rat) + (5 : Rat) / (10 : Rat) ^ (1 : Nat)) * 1024) from rfl,
      show convert_memory_to_mebibytes (KStr "1536Mi") = .ok (1536 : Rat) from rfl]
    norm_num

/-- Witness for C6 at the concrete input `"1Gi"`. -/
theorem C6_memory_markers_witness :
    convert_memory_to_mebibytes (KStr "1Gi") = .ok ((1 : Rat) * 1024) :=
  C6_memory_markers.1 "1Gi" 1 rfl rfl

/-- C8: every node carrying the control-plane role label key is excluded
from the node resource aggregation: the result of `get_node_resources` is
unchanged when such nodes are removed from the listing, so they produce no
record and contribute to no sum regardless of their resource values. -/
theorem C8_control_plane_excluded (nd : NodeData) :
    get_node_resources nd =
      get_node_resources ⟨nd.items.filter fun n => !isControlPlane n⟩ :=
  (foldNodes_filter nd.items).symm

/-- C9: the absence marker and unparseable inputs normalize to 0 without an
error: `"N/A"` for both converters, and for CPU the empty string, `"garbage"`
and in general every string whose stripped remainder is empty. -/
theorem C9_absence_and_garbage :
    convert_cpu_to_millicores (KStr "N/A") = 0
    ∧ convert_memory_to_mebibytes (KStr "N/A") = .ok 0
    ∧ convert_cpu_to_millicores (KStr "") = 0
    ∧ convert_cpu_to_millicores (KStr "garbage") = 0
    ∧ (∀ s : String, (pyLower s).filter keepNumChar = [] →
        convert_cpu_to_millicores (KStr s) = 0) := by
  refine ⟨rfl, rfl, rfl, rfl, fun s h => ?_⟩
  simp only [convert_cpu_to_millicores]
  split
  · rfl
  · rw [h]
    rfl

/-- Witness for C9's universally quantified part at the input `"xyz"`. -/
theorem C9_absence_and_garbage_witness :
    convert_cpu_to_millicores (KStr "xyz") = 0 :=
  C9_absence_and_garbage.2.2.2.2 "xyz" rfl

/-- C3 counterexample: the claim that the normalized results are ≥ 0 for
*every* input fails — the stripping regex keeps `'-'`, so `"-5"` parses to
−5 and normalizes to −5000 millicores. -/
theorem C3_counterexample : convert_cpu_to_millicores (KStr "-5") < 0 := by
  rw [show convert_cpu_to_millicores (KStr "-5") = -(5 : Rat) * 1000 from rfl]
  norm_num

/-- C3 (amended): for every input whose string contains no `'-'` character
(resp. every nonnegative numeric input), any value the converters return is
≥ 0, and the absence marker `"N/A"` normalizes to exactly 0. -/
theorem C3_amended_nonneg :
    (∀ s : String, '-' ∉ s.data → 0 ≤ convert_cpu_to_millicores (KStr s))
    ∧ (∀ q : Rat, 0 ≤ q → 0 ≤ convert_cpu_to_millicores (KNum q))
    ∧ (∀ (s : String) (r : Rat), '-' ∉ s.data →
        convert_memory_to_mebibytes (KStr s) = .ok r → 0 ≤ r)
    ∧ (∀ (q r : Rat), 0 ≤ q → convert_memory_to_mebibytes (KNum q) = .ok r → 0 ≤ r)
    ∧ convert_cpu_to_millicores (KStr "N/A") = 0
    ∧ convert_memory_to_mebibytes (KStr "N/A") = .ok 0 := by
  refine ⟨fun s hs => convert_cpu_str_nonneg hs, fun q hq => ?_,
    fun s r hs h => convert_mem_str_nonneg hs h, fun q r hq h => ?_, rfl, rfl⟩
  · show 0 ≤ q * 1000
    exact mul_nonneg hq (by norm_num)
  · replace h : Except.ok (q / (1024 * 1024)) = Except.ok r := h
    obtain rfl := Except.ok.inj h
    exact div_nonneg hq (by norm_num)

/-- Witness for C3's amended statement at concrete inputs. -/
theorem C3_amended_nonneg_witness :
    0 ≤ convert_cpu_to_millicores (KStr "7")
    ∧ 0 ≤ convert_cpu_to_millicores (KNum 2)
    ∧ (0 : Rat) ≤ 128
    ∧ (0 : Rat) ≤ 2 / (1024 * 1024) :=
  ⟨C3_amended_nonneg.1 "7" (by decide),
   C3_amended_nonneg.2.1 2 (by norm_num),
   C3_amended_nonneg.2.2.1 "128Mi" 128 (by decide) rfl,
   C3_amended_nonneg.2.2.2.1 2 (2 / (1024 * 1024)) (by norm_num) rfl⟩

/-- C4: for every whole-core count `N ≥ 0`, normalizing `N` as a number,
normalizing the decimal string `str(N)`, and computing `1000 × N` all give
the same CPU result. -/
theorem C4_whole_cores (n : Nat) :
    convert_cpu_to_millicores (KNum (n : Rat)) = 1000 * (n : Rat)
    ∧ convert_cpu_to_millicores (KStr (pyStrNat n)) = 1000 * (n : Rat) := by
  have hall : ∀ c ∈ (pyStrNat n).data, isDigitChar c = true :=
    fun _ hc => pyStrNat_all_digits hc
  have hlow : pyLower (pyStrNat n) = (pyStrNat n).data := map_pyLowerChar_of_all_digits hall
  constructor
  · show (n : Rat) * 1000 = 1000 * (n : Rat)
    exact mul_comm _ _
  · have hp : parseFloat ((pyLower (pyStrNat n)).filter keepNumChar) = some ((n : Nat) : Rat) := by
      rw [hlow, filter_keep_of_all_digits hall,
        parseFloat_of_all_digits (pyStrNat_ne_nil n) hall, digitsVal_pyStrNat]
    rw [convert_cpu_str_eval (pyStrNat_ne_NA n) hp]
    have hm : containsM (pyStrNat n) = false := by
      unfold containsM
      rw [hlow]
      exact contains_m_eq_false hall
    rw [hm]
    simp only [Bool.false_eq_true, if_false]
    exact mul_comm _ _

/-- C7: the totals returned by `parse_container_resources` are the sums of
the normalized CPU and memory over the produced records; aggregating the
two containers `{cpu: "500m", memory: "128Mi"}` and `{cpu: "1", memory:
"1Gi"}` yields totals of 1500 millicores and 1152 MiB. -/
theorem C7_totals_are_sums :
    (∀ (pd : PodData) (rs : List ContainerRecord) (tc tm : Rat),
      parse_container_resources pd = .ok (rs, tc, tm) →
      tc = sumCpu rs ∧ tm = sumMem rs)
    ∧ (∃ rs : List ContainerRecord,
        parse_container_resources
          ⟨[⟨"ns1", "pod1", some "node1",
            [⟨"c1", some ⟨some (KStr "500m"), some (KStr "128Mi")⟩⟩,
             ⟨"c2", some ⟨some (KStr "1"), some (KStr "1Gi")⟩⟩]⟩]⟩ =
          .ok (rs, 1500, 1152)) := by
  constructor
  · intro pd rs tc tm h
    exact foldItems_totals pd.items [] 0 0 rs tc tm h rfl rfl
  · refine ⟨[⟨"ns1/pod1/c1", "node1", KStr "500m", KStr "128Mi", 500, 128⟩,
      ⟨"ns1/pod1/c2", "node1", KStr "1", KStr "1Gi", (1 : Rat) * 1000, (1 : Rat) * 1024⟩], ?_⟩
    rw [show parse_container_resources
        ⟨[⟨"ns1", "pod1", some "node1",
          [⟨"c1", some ⟨some (KStr "500m"), some (KStr "128Mi")⟩⟩,
           ⟨"c2", some ⟨some (KStr "1"), some (KStr "1Gi")⟩⟩]⟩]⟩ =
      .ok ([⟨"ns1/pod1/c1", "node1", KStr "500m", KStr "128Mi", 500, 128⟩,
        ⟨"ns1/pod1/c2", "node1", KStr "1", KStr "1Gi", (1 : Rat) * 1000, (1 : Rat) * 1024⟩],
        (0 + 500) + (1 : Rat) * 1000, (0 + 128) + (1 : Rat) * 1024) from rfl]
    norm_num

/-- Witness for C7's universally quantified part, at a one-container
snapshot with no declared requests. -/
theorem C7_totals_are_sums_witness :
    (0 + 0 : Rat) = sumCpu [⟨"a/b/c", "N/A", KStr "N/A", KStr "N/A", 0, 0⟩]
    ∧ (0 + 0 : Rat) = sumMem [⟨"a/b/c", "N/A", KStr "N/A", KStr "N/A", 0, 0⟩] :=
  C7_totals_are_sums.1 ⟨[⟨"a", "b", none, [⟨"c", none⟩]⟩]⟩
    [⟨"a/b/c", "N/A", KStr "N/A", KStr "N/A", 0, 0⟩] (0 + 0) (0 + 0) rfl

/-- C10 counterexample: a non-control-plane node whose allocatable map lacks
the `cpu` key but carries the unparseable memory value `"Gi"` makes
`get_node_resources` raise, so no record is produced for it — refuting the
unconditional claim. -/
theorem C10_counterexample :
    get_node_resources ⟨[⟨"w1", none, ⟨[("memory", KStr "Gi")], []⟩⟩]⟩ =
      .error () := rfl

/-- C10 (amended): provided the node's quantity conversions succeed (its
`mkNodeRes` returns a record), a non-control-plane node is not skipped —
`get_node_resources` yields its record — and every `cpu`/`memory` key
missing from the allocatable or capacity map is defaulted to `"0"`, so the
corresponding field normalizes to 0. -/
theorem C10_amended (n : NodeItem) (r : NodeRes)
    (hcp : isControlPlane n = false) (hr : mkNodeRes n = .ok r) :
    get_node_resources ⟨[n]⟩ = .ok [(n.name, r)]
    ∧ (lookupKey n.status.allocatable "cpu" = none → r.allocatable_cpu = 0)
    ∧ (lookupKey n.status.allocatable "memory" = none → r.allocatable_memory = 0)
    ∧ (lookupKey n.status.capacity "cpu" = none → r.capacity_cpu = 0)
    ∧ (lookupKey n.status.capacity "memory" = none → r.capacity_memory = 0) := by
  have hfirst : get_node_resources ⟨[n]⟩ = .ok [(n.name, r)] := by
    show foldNodes [n] = .ok [(n.name, r)]
    unfold foldNodes
    rw [hcp]
    simp only [Bool.false_eq_true, if_false]
    rw [hr]
    rfl
  have hcpu0 : convert_cpu_to_millicores ((none : Option KValue).getD (KStr "0")) = 0 := by
    rw [show convert_cpu_to_millicores ((none : Option KValue).getD (KStr "0")) =
      (0 : Rat) * 1000 from rfl]
    norm_num
  unfold mkNodeRes at hr
  split at hr
  · rename_i am cm ham hcm
    obtain rfl := Except.ok.inj hr
    refine ⟨hfirst, fun h => ?_, fun h => ?_, fun h => ?_, fun h => ?_⟩
    · show convert_cpu_to_millicores
        ((lookupKey n.status.allocatable "cpu").getD (KStr "0")) = 0
      rw [h]
      exact hcpu0
    · rw [h] at ham
      replace ham : convert_memory_to_mebibytes (KStr "0") = .ok am := ham
      rw [show convert_memory_to_mebibytes (KStr "0") =
        .ok ((0 : Rat) / (1024 * 1024)) from rfl] at ham
      obtain rfl := Except.ok.inj ham
      show (0 : Rat) / (1024 * 1024) = 0
      norm_num
    · show convert_cpu_to_millicores
        ((lookupKey n.status.capacity "cpu").getD (KStr "0")) = 0
      rw [h]
      exact hcpu0
    · rw [h] at hcm
      replace hcm : convert_memory_to_mebibytes (KStr "0") = .ok cm := hcm
      rw [show convert_memory_to_mebibytes (KStr "0") =
        .ok ((0 : Rat) / (1024 * 1024)) from rfl] at hcm
      obtain rfl := Except.ok.inj hcm
      show (0 : Rat) / (1024 * 1024) = 0
      norm_num
  · exact absurd hr (by simp)
  · exact absurd hr (by simp)

/-- Witness for C10's amended statement: a worker node with empty
allocatable and capacity maps gets a record whose four fields normalize
to 0. -/
theorem C10_amended_witness :
    get_node_resources ⟨[⟨"w1", none, ⟨[], []⟩⟩]⟩ =
      .ok [("w1", ⟨(0 : Rat) * 1000, (0 : Rat) / (1024 * 1024),
        (0 : Rat) * 1000, (0 : Rat) / (1024 * 1024)⟩)]
    ∧ ((0 : Rat) * 1000 = 0) ∧ ((0 : Rat) / (1024 * 1024) = 0) := by
  obtain ⟨h1, h2, h3, _, _⟩ := C10_amended ⟨"w1", none, ⟨[], []⟩⟩
    ⟨(0 : Rat) * 1000, (0 : Rat) / (1024 * 1024),
     (0 : Rat) * 1000, (0 : Rat) / (1024 * 1024)⟩ rfl rfl
  exact ⟨h1, h2 rfl, h3 rfl⟩

end Kreq
